import Mathlib

/-!
Verification of the boolean-series analysis core of the A-scab repository
(`ascab/utils/generic.py` and `ascab/utils/weather.py`), shallowly embedded in
Lean.  Weather quantities (Python floats) are modelled as rationals, numpy
boolean arrays and pandas columns as `List`s, and a raised exception as an
`Except.error`.
-/

namespace AScab

/-! ## generic.py -/

/-- Loop of `items_since_last_true` (generic.py).  The accumulator `d` is
`i - last_true_index` for the current position `i`: the source initialises
`last_true_index = -1`, so `d` starts at `0 - (-1) = 1`.  When the current
value is true the source sets `last_true_index = i` and stores `i - i = 0`,
and the next position is at distance `1`; otherwise it stores `d` and the
distance grows by one. -/
def islGo : List Bool → Nat → List Nat
  | [], _ => []
  | b :: rest, d => (if b then 0 else d) :: islGo rest (if b then 1 else d + 1)

/-- `items_since_last_true` (generic.py): for each position `i`, the value
`i - last_true_index` where `last_true_index` is the most recent index `≤ i`
holding `true`, initialised to `-1`. -/
def items_since_last_true (array : List Bool) : List Nat := islGo array 1

/-- Loop of `fill_gaps` (generic.py) building `false_series_lengths`.  The
accumulator `c` is `current_length`, the length of the currently open run of
`false` values.  On a `true` at index `i` the source writes `c` into the `c`
positions before it (`false_series_lengths[i - c : i] = c`) and leaves the `0`
at position `i`; after the loop a still-open run is written the same way
(`false_series_lengths[-c:] = c`). -/
def frlGo : List Bool → Nat → List Nat
  | [], c => List.replicate c c
  | b :: rest, c =>
    if b then List.replicate c c ++ 0 :: frlGo rest 0
    else frlGo rest (c + 1)

/-- The `false_series_lengths` array of `fill_gaps` (generic.py): each position
holds the length of the maximal run of consecutive `false` values containing
it, and `0` at `true` positions. -/
def falseRunLengths (arr : List Bool) : List Nat := frlGo arr 0

/-- `fill_gaps` (generic.py): returns `false_series_lengths <= max_gap`
elementwise.  `max_gap` is an `Int` as in the source (a Python int, default
`2`); callers here always pass it explicitly. -/
def fill_gaps (arr : List Bool) (max_gap : Int) : List Bool :=
  (falseRunLengths arr).map (fun (n : Nat) => decide ((n : Int) ≤ max_gap))

/-! ## weather.py -/

/-- `is_wet` (weather.py): `precipitation > 0.0 or vapour_pressure_deficit <
0.25` (thresholds `precipitation_threshold = 0.0` and
`vapour_pressure_deficit_threshold = 0.25` kPa, written as rationals). -/
def is_wet (precipitation vapour_pressure_deficit : ℚ) : Bool :=
  decide (precipitation > 0) || decide (vapour_pressure_deficit < mkRat 1 4)

/-- One row of the hourly weather table produced by the external retrieval
collaborator.  `date` is the hour-resolution timestamp index of the row, and
`day` the calendar day it belongs to, modelling the `"%Y-%m-%d"` key that
`df_weather.loc[day.strftime("%Y-%m-%d")]` matches on. -/
structure WRow where
  date : Nat
  day : Nat
  precipitation : ℚ
  vapour_pressure_deficit : ℚ
  temperature_2m : ℚ
  relative_humidity_2m : ℚ

/-- `df_weather.loc[day.strftime("%Y-%m-%d")]` (weather.py): the rows of the
given calendar day, in stored order.  When no row matches, pandas raises
`KeyError`; the spec's error taxonomy names this failure `MissingDataError`,
so the embedding models it as an `Except.error` carrying that name. -/
def loc_day (df_weather : List WRow) (day : Nat) : Except String (List WRow) :=
  let rows := df_weather.filter (fun r => r.day == day)
  if rows.isEmpty then Except.error "MissingDataError" else Except.ok rows

/-- `compute_leaf_wetness_duration` (weather.py): the sum of the boolean
elementwise `is_wet` series of the day, i.e. the number of wet hours. -/
def compute_leaf_wetness_duration (df_weather_day : List WRow) : Nat :=
  (df_weather_day.map (fun r => is_wet r.precipitation r.vapour_pressure_deficit)).count true

/-- `is_rain_event` (weather.py): `precipitation >= threshold` elementwise,
then `fill_gaps` with `max_gap`.  Source defaults (used by every caller):
`threshold = 0.2` and `max_gap = 2`. -/
def is_rain_event (df_weather_day : List WRow) (threshold : ℚ) (max_gap : Int) : List Bool :=
  let precipitation := df_weather_day.map (fun r => r.precipitation)
  let rain := precipitation.map (fun p => decide (p ≥ threshold))
  fill_gaps rain max_gap

/-- One row of `WeatherSummary.result` (weather.py): fields `Date`,
`LeafWetness`, `HasRain`, `Precipitation`, `Temperature`, `HumidDuration`. -/
structure DailyRow where
  date : Nat
  leafWetness : ℚ
  hasRain : ℚ
  precipitationTotal : ℚ
  temperature : ℚ
  humidDuration : Nat

/-- Body of the day loop of `WeatherSummary.__init__` (weather.py): the
summary row of one day.  Fields in order: the day, `float` of the leaf-wetness
hours, `float(np.any(is_rain_event(...)))`, the precipitation sum, the
`temperature_2m` mean, and the count of hours with `relative_humidity_2m >
85.0`. -/
def daily_row (day : Nat) (df_weather_day : List WRow) : DailyRow :=
  ⟨day,
   (compute_leaf_wetness_duration df_weather_day : ℚ),
   if (is_rain_event df_weather_day (mkRat 1 5) 2).any (fun b => b) then 1 else 0,
   (df_weather_day.map (fun r => r.precipitation)).sum,
   (df_weather_day.map (fun r => r.temperature_2m)).sum / (df_weather_day.length : ℚ),
   (df_weather_day.filter (fun r => r.relative_humidity_2m > 85)).length⟩

/-- The day loop of `WeatherSummary.__init__` (weather.py): one `DailyRow` per
requested day, in the order the days were supplied; a day with no matching
rows raises (see `loc_day`). -/
def weatherSummaryRows : List Nat → List WRow → Except String (List DailyRow)
  | [], _ => Except.ok []
  | day :: dates, df_weather =>
    match loc_day df_weather day with
    | Except.error e => Except.error e
    | Except.ok rows =>
      match weatherSummaryRows dates df_weather with
      | Except.error e => Except.error e
      | Except.ok rest => Except.ok (daily_row day rows :: rest)

/-- `summarize_weather` (weather.py): builds a `WeatherSummary` and returns its
`result` table. -/
def summarize_weather (dates : List Nat) (df_weather : List WRow) :
    Except String (List DailyRow) :=
  weatherSummaryRows dates df_weather

/-- Loop of the 1-D connected-component labeling performed by
`scipy.ndimage.label` on a boolean array (weather.py): background `false` is
labelled `0`, and maximal runs of `true` receive the labels `1, 2, ...` in
left-to-right order of first appearance.  `n` is the number of components seen
so far and `prev` records whether the previous element was `true`. -/
def labelGo : List Bool → Nat → Bool → List Nat
  | [], _, _ => []
  | b :: rest, n, prev =>
    if b then
      (if prev then n else n + 1) :: labelGo rest (if prev then n else n + 1) true
    else 0 :: labelGo rest n false

/-- The label array returned by `scipy.ndimage.label` (weather.py). -/
def label1d (arr : List Bool) : List Nat := labelGo arr 0 false

/-- The raw elementwise `wet` series computed by
`compute_duration_and_temperature_wet_period` (weather.py) with
`df.apply(lambda row: is_wet(...), axis=1)`. -/
def wetSeries (df : List WRow) : List Bool :=
  df.map (fun r => is_wet r.precipitation r.vapour_pressure_deficit)

/-- The `temperature_2m` column of a window as a list (weather.py). -/
def tempSeries (df : List WRow) : List ℚ :=
  df.map (fun r => r.temperature_2m)

/-- `compute_duration_and_temperature_wet_period` (weather.py): label the
gap-filled (`max_gap = 4`) wet series, take the indices whose label equals `2`
and where the raw `wet` is true (`np.where` lists them in increasing order, so
`indices[-1]` is `getLast?`); if any exist, return the count of raw wet hours
and the mean temperature over the prefix up to and including the last such
index, else `(0, none)` (`none` models Python `None`, the absent
temperature). -/
def compute_duration_and_temperature_wet_period (df_weather_infection : List WRow) :
    Nat × Option ℚ :=
  let wet := wetSeries df_weather_infection
  let temperature := tempSeries df_weather_infection
  let wet_filled := fill_gaps wet 4
  let wet_periods := label1d wet_filled
  let indices := (List.range wet.length).filter
    (fun i => (wet_periods.getD i 0 == 2) && wet.getD i false)
  match indices.getLast? with
  | some last_index =>
    ((wet.take (last_index + 1)).count true,
      some ((temperature.take (last_index + 1)).sum /
        ((temperature.take (last_index + 1)).length : ℚ)))
  | none => (0, none)

/-- `summarize_rain` (weather.py): for each requested day, in the order the
days were supplied, pair the day's rows with the day's `is_rain_event` flags
(the Python `zip` of the index, the precipitation column and the flags) and
accumulate the hour rows.  Each output row is `(Hourly Date, Hourly
Precipitation, Hourly Rain Event)`. -/
def summarize_rain : List Nat → List WRow → Except String (List (Nat × ℚ × Bool))
  | [], _ => Except.ok []
  | day :: dates, df_weather =>
    match loc_day df_weather day with
    | Except.error e => Except.error e
    | Except.ok rows =>
      match summarize_rain dates df_weather with
      | Except.error e => Except.error e
      | Except.ok rest =>
        Except.ok (List.zipWith (fun r e => (r.date, r.precipitation, e)) rows
          (is_rain_event rows (mkRat 1 5) 2) ++ rest)

/-! ## Specification-side notions used in the statements -/

/-- Length of the maximal run of consecutive `false` values containing
position `i` of `s` (meaningful when `s` is `false` at `i`): the number of
consecutive `false` values at or before `i` plus the number of consecutive
`false` values after `i`. -/
def maxFalseRunLen (s : List Bool) (i : Nat) : Nat :=
  ((s.take (i + 1)).reverse.takeWhile (fun b => !b)).length +
    ((s.drop (i + 1)).takeWhile (fun b => !b)).length

/-- The series `s` holds `true` at position `j` (out-of-range positions count
as `false`, as everywhere in this development). -/
def isTrueAt (s : List Bool) : Nat → Prop := fun j => s.getD j false = true

instance (s : List Bool) : DecidablePred (isTrueAt s) := fun j => by
  unfold isTrueAt
  infer_instance

/-- The index of the most recent `true` at or before position `i` of `s`, or
`-1` if no `true` has occurred yet (the virtual `true` at index `-1` of the
spec): the greatest `j ≤ i` with `s` true at `j`. -/
def lastTrueIdx (s : List Bool) (i : Nat) : Int :=
  match ((List.range (i + 1)).filter (fun j => s.getD j false)).getLast? with
  | some j => (j : Int)
  | none => -1

/-- An hourly row carrying only a precipitation value; the other fields are
irrelevant to `is_rain_event`. -/
def precipRow (p : ℚ) : WRow := ⟨0, 0, p, 0, 0, 0⟩

/-- The one-day window of claim C3: ten hours with precipitation
`[0, 0, 0.3, 0, 0, 0.4, 0, 0, 0, 0]`. -/
def c3Day : List WRow :=
  [precipRow 0, precipRow 0, precipRow (mkRat 3 10), precipRow 0, precipRow 0,
   precipRow (mkRat 2 5), precipRow 0, precipRow 0, precipRow 0, precipRow 0]

/-- The selection predicate of
`compute_duration_and_temperature_wet_period`: index `i` carries component
label `2` in the labeling of `fill_gaps wet 4` and the raw `wet` is true
there (`(wet_periods == 2) & (wet == True)` in the source). -/
def qualifies (df : List WRow) (i : Nat) : Prop :=
  (label1d (fill_gaps (wetSeries df) 4)).getD i 0 = 2 ∧ (wetSeries df).getD i false = true

instance (df : List WRow) (i : Nat) : Decidable (qualifies df i) := by
  unfold qualifies
  infer_instance

/-- An hourly row for infection windows: precipitation, vapour pressure
deficit and temperature; the remaining fields are irrelevant. -/
def infRow (p vpd t : ℚ) : WRow := ⟨0, 0, p, vpd, t, 0⟩

/-- The raw wet pattern of claim C2: 8 wet, 2 dry, 6 wet, 8 dry, 12 wet
(36 hours). -/
def c2Pattern : List Bool :=
  List.replicate 8 true ++ List.replicate 2 false ++ List.replicate 6 true ++
    List.replicate 8 false ++ List.replicate 12 true

/-- A 36-hour window realising the C2 wet pattern: a wet hour has
precipitation `1` (and vapour pressure deficit `1`, so `is_wet` is decided by
the precipitation alone), a dry hour has precipitation `0`; the hour
temperatures are taken from `ts`. -/
def c2WindowT (ts : List ℚ) : List WRow :=
  List.zipWith (fun (w : Bool) (t : ℚ) => infRow (if w then 1 else 0) 1 t) c2Pattern ts

/-- Concrete temperatures for the C2 window: `0` everywhere except hour 20
(inside the long dry gap), whose temperature is `36`.  The mean over the full
36-hour prefix is `1`, while the mean over the first 16 hours is `0`. -/
def c2Temps : List ℚ :=
  List.replicate 20 0 ++ 36 :: List.replicate 15 0

/-- A 7-hour window with two one-hour wet periods separated by 5 dry hours
(gap `> 4`, so the second wet hour carries label `2`); all temperatures are
`2`. -/
def c1Window : List WRow :=
  [infRow 1 1 2, infRow 0 1 2, infRow 0 1 2, infRow 0 1 2, infRow 0 1 2,
   infRow 0 1 2, infRow 1 1 2]

/-- A window with a single wet period: no index carries label `2`. -/
def c6Window : List WRow := [infRow 1 1 2, infRow 1 1 2]

/-- A two-hour table for one calendar day (`day = 3`), used to witness
`summarize_rain`. -/
def c9df : List WRow := [⟨7, 3, mkRat 1 2, 0, 0, 0⟩, ⟨8, 3, 0, 0, 0, 0⟩]

/-! ## Basic lemmas about `fill_gaps` -/

lemma frlGo_length (l : List Bool) : ∀ c, (frlGo l c).length = c + l.length := by
  induction l with
  | nil => intro c; simp [frlGo]
  | cons b rest ih =>
    intro c
    by_cases hb : b = true
    · simp [frlGo, hb, ih]
    · simp only [Bool.not_eq_true] at hb
      simp [frlGo, hb, ih]
      omega

lemma falseRunLengths_length (l : List Bool) : (falseRunLengths l).length = l.length := by
  simp [falseRunLengths, frlGo_length]

lemma fill_gaps_length (l : List Bool) (g : Int) : (fill_gaps l g).length = l.length := by
  simp [fill_gaps, falseRunLengths_length]

lemma fill_gaps_of_neg (arr : List Bool) (max_gap : Int) (h : max_gap < 0) :
    fill_gaps arr max_gap = List.replicate arr.length false := by
  have hmap : ∀ m : List Nat,
      m.map (fun (n : Nat) => decide ((n : Int) ≤ max_gap)) = List.replicate m.length false := by
    intro m
    induction m with
    | nil => simp
    | cons a t ih =>
      have ha : ¬ ((a : Int) ≤ max_gap) := by omega
      simp [ih, ha, List.replicate_succ]
  rw [fill_gaps, hmap, falseRunLengths_length]

/-! ## Run-structure lemmas for `falseRunLengths` -/

lemma frlGo_shift (c : Nat) : ∀ (l : List Bool) (d : Nat),
    frlGo (List.replicate c false ++ l) d = frlGo l (d + c) := by
  induction c with
  | zero => intro l d; simp
  | succ m ih =>
    intro l d
    have : List.replicate (m + 1) false ++ l = false :: (List.replicate m false ++ l) := rfl
    rw [this]
    show frlGo (List.replicate m false ++ l) (d + 1) = frlGo l (d + (m + 1))
    rw [ih]
    congr 1
    omega

lemma frl_cons_true (l : List Bool) :
    falseRunLengths (true :: l) = 0 :: falseRunLengths l := by
  simp [falseRunLengths, frlGo]

lemma frl_block (k : Nat) (l : List Bool) :
    falseRunLengths (List.replicate k false ++ true :: l) =
      List.replicate k k ++ 0 :: falseRunLengths l := by
  rw [falseRunLengths, frlGo_shift]
  simp [frlGo, falseRunLengths]

lemma frl_replicate_false (k : Nat) :
    falseRunLengths (List.replicate k false) = List.replicate k k := by
  have h : List.replicate k false ++ ([] : List Bool) = List.replicate k false := by simp
  rw [falseRunLengths, ← h, frlGo_shift]
  simp [frlGo]

/-- Every boolean list is empty, starts with `true`, or starts with a nonempty
maximal block of `false` values that is closed by a `true` or runs to the
end. -/
lemma bool_block_cases (s : List Bool) :
    s = [] ∨ (∃ l, s = true :: l) ∨
      (∃ k l, 0 < k ∧ s = List.replicate k false ++ true :: l) ∨
      (∃ k, 0 < k ∧ s = List.replicate k false) := by
  induction s with
  | nil => left; rfl
  | cons b rest ih =>
    by_cases hb : b = true
    · right; left; exact ⟨rest, by rw [hb]⟩
    · simp only [Bool.not_eq_true] at hb
      subst hb
      rcases ih with h0 | ⟨l, hl⟩ | ⟨k, l, _, hl⟩ | ⟨k, _, hl⟩
      · right; right; right
        exact ⟨1, by omega, by rw [h0]; rfl⟩
      · right; right; left
        exact ⟨1, l, by omega, by rw [hl]; rfl⟩
      · right; right; left
        exact ⟨k + 1, l, by omega, by rw [hl]; rfl⟩
      · right; right; right
        exact ⟨k + 1, by omega, by rw [hl]; rfl⟩

lemma takeWhile_append_stop (p : Bool → Bool) (xs ys : List Bool) (y : Bool)
    (hy : p y = false) :
    (xs ++ y :: ys).takeWhile p = xs.takeWhile p := by
  induction xs with
  | nil => simp [List.takeWhile_cons, hy]
  | cons a t ih =>
    by_cases ha : p a = true
    · simp [List.takeWhile_cons, ha, ih]
    · simp only [Bool.not_eq_true] at ha
      simp [List.takeWhile_cons, ha]

lemma takeWhile_not_replicate_false (m : Nat) :
    (List.replicate m false).takeWhile (fun b => !b) = List.replicate m false := by
  induction m with
  | zero => rfl
  | succ n ih => simp [List.replicate_succ, List.takeWhile_cons, ih]

lemma getD_replicate {α : Type} (a d : α) {k i : Nat} (h : i < k) :
    (List.replicate k a).getD i d = a := by
  have hlen : i < (List.replicate k a).length := by simpa using h
  rw [List.getD_eq_getElem _ _ hlen]
  exact List.getElem_replicate a hlen

/-- Shifting `maxFalseRunLen` across a leading `true`. -/
lemma maxFalseRunLen_cons_true (l : List Bool) (j : Nat) :
    maxFalseRunLen (true :: l) (j + 1) = maxFalseRunLen l j := by
  unfold maxFalseRunLen
  rw [List.take_succ_cons, List.drop_succ_cons]
  congr 2
  rw [List.reverse_cons, takeWhile_append_stop]
  rfl

/-- Shifting `maxFalseRunLen` across a leading closed `false` block. -/
lemma maxFalseRunLen_shift_block (k : Nat) (l : List Bool) (j : Nat) :
    maxFalseRunLen (List.replicate k false ++ true :: l) (k + 1 + j) =
      maxFalseRunLen l j := by
  unfold maxFalseRunLen
  have htake : (List.replicate k false ++ true :: l).take (k + 1 + j + 1) =
      List.replicate k false ++ true :: l.take (j + 1) := by
    rw [List.take_append_eq_append_take, List.take_replicate, List.length_replicate]
    congr 1
    · congr 1
      omega
    · have : k + 1 + j + 1 - k = j + 2 := by omega
      rw [this, List.take_succ_cons]
  have hdrop : (List.replicate k false ++ true :: l).drop (k + 1 + j + 1) =
      l.drop (j + 1) := by
    rw [List.drop_append_eq_append_drop, List.drop_replicate, List.length_replicate]
    have h1 : k - (k + 1 + j + 1) = 0 := by omega
    have h2 : k + 1 + j + 1 - k = j + 2 := by omega
    rw [h1, h2, List.drop_succ_cons]
    simp
  rw [htake, hdrop]
  congr 2
  rw [List.reverse_append, List.reverse_cons]
  have hassoc : ((l.take (j + 1)).reverse ++ [true]) ++ (List.replicate k false).reverse =
      (l.take (j + 1)).reverse ++ (true :: (List.replicate k false).reverse) := by
    rw [List.append_assoc]
    rfl
  rw [hassoc, takeWhile_append_stop]
  rfl

/-- Inside a leading `false` block of length `k` that is closed by a `true`,
the maximal false run containing `i < k` has length `k`. -/
lemma maxFalseRunLen_in_block (k : Nat) (l : List Bool) (i : Nat) (hik : i < k) :
    maxFalseRunLen (List.replicate k false ++ true :: l) i = k := by
  unfold maxFalseRunLen
  have htake : (List.replicate k false ++ true :: l).take (i + 1) =
      List.replicate (i + 1) false := by
    rw [List.take_append_eq_append_take, List.take_replicate, List.length_replicate]
    have h1 : min (i + 1) k = i + 1 := by omega
    have h2 : i + 1 - k = 0 := by omega
    rw [h1, h2]
    simp
  have hdrop : (List.replicate k false ++ true :: l).drop (i + 1) =
      List.replicate (k - (i + 1)) false ++ true :: l := by
    rw [List.drop_append_eq_append_drop, List.drop_replicate, List.length_replicate]
    have h2 : i + 1 - k = 0 := by omega
    rw [h2]
    simp
  rw [htake, hdrop, List.reverse_replicate, takeWhile_not_replicate_false,
    takeWhile_append_stop _ _ _ _ (by rfl), takeWhile_not_replicate_false]
  simp
  omega

/-- Inside an unclosed trailing `false` block of length `k`, the maximal false
run containing `i < k` has length `k`. -/
lemma maxFalseRunLen_in_tail_block (k : Nat) (i : Nat) (hik : i < k) :
    maxFalseRunLen (List.replicate k false) i = k := by
  unfold maxFalseRunLen
  rw [List.take_replicate, List.drop_replicate, List.reverse_replicate,
    takeWhile_not_replicate_false, takeWhile_not_replicate_false]
  simp
  omega

/-- The central characterisation of `false_series_lengths`: position `i` holds
`0` when the input is `true` there and the length of the maximal run of
consecutive `false` values containing `i` otherwise. -/
lemma falseRunLengths_getD_aux (n : Nat) : ∀ (s : List Bool), s.length ≤ n →
    ∀ i, i < s.length →
    (falseRunLengths s).getD i 0 =
      if s.getD i false = true then 0 else maxFalseRunLen s i := by
  induction n with
  | zero =>
    intro s hs i hi
    omega
  | succ m ihm =>
    intro s hs i hi
    rcases bool_block_cases s with h0 | ⟨l, hl⟩ | ⟨k, l, hk, hl⟩ | ⟨k, hk, hl⟩
    · subst h0
      simp at hi
    · subst hl
      rw [frl_cons_true]
      match i with
      | 0 => simp
      | j + 1 =>
        rw [List.getD_cons_succ, List.getD_cons_succ, maxFalseRunLen_cons_true]
        have hj : j < l.length := by simpa using hi
        have hlm : l.length ≤ m := by
          simp at hs
          omega
        exact ihm l hlm j hj
    · subst hl
      have hlen : (List.replicate k false ++ true :: l).length = k + 1 + l.length := by
        simp
        omega
      rw [frl_block]
      rcases Nat.lt_trichotomy i k with hik | hik | hik
      · rw [List.getD_append _ _ _ _ (by simpa using hik),
          List.getD_append _ _ _ _ (by simpa using hik),
          getD_replicate _ _ hik, getD_replicate _ _ hik]
        simp [maxFalseRunLen_in_block k l i hik]
      · subst hik
        rw [List.getD_append_right _ _ _ _ (by simp),
          List.getD_append_right _ _ _ _ (by simp)]
        simp
      · obtain ⟨j, rfl⟩ : ∃ j, i = k + 1 + j := ⟨i - (k + 1), by omega⟩
        have hj : j < l.length := by
          rw [hlen] at hi
          omega
        have hlm : l.length ≤ m := by
          rw [hlen] at hs
          omega
        rw [List.getD_append_right _ _ _ _ (by simp; omega),
          List.getD_append_right _ _ _ _ (by simp; omega),
          List.length_replicate, List.length_replicate]
        have hsub : k + 1 + j - k = j + 1 := by omega
        rw [hsub, List.getD_cons_succ, List.getD_cons_succ, maxFalseRunLen_shift_block]
        exact ihm l hlm j hj
    · subst hl
      have hik : i < k := by simpa using hi
      rw [frl_replicate_false, getD_replicate _ _ hik, getD_replicate _ _ hik]
      simp [maxFalseRunLen_in_tail_block k i hik]

/-- The central characterisation of `false_series_lengths`: position `i` holds
`0` when the input is `true` there, and the length of the maximal run of
consecutive `false` values containing `i` otherwise. -/
lemma falseRunLengths_getD (s : List Bool) (i : Nat) (hi : i < s.length) :
    (falseRunLengths s).getD i 0 =
      if s.getD i false = true then 0 else maxFalseRunLen s i :=
  falseRunLengths_getD_aux s.length s (le_refl _) i hi

/-! ## Claim C5 -/

/-- Claim C5: for every boolean series `s`, every `max_gap ≥ 0` and every
position `i`, `fill_gaps s max_gap` is `true` at `i` iff `s` is `true` at `i`
or `i` lies inside a maximal run of consecutive `false` values whose total
length is at most `max_gap`.  `maxFalseRunLen` measures an unclosed trailing
run in the same way, and on an all-`false` series of length `≤ max_gap` the
right-hand side holds everywhere, so such a series becomes all-`true`. -/
theorem fill_gaps_getD_iff (s : List Bool) (max_gap : Int) (hg : 0 ≤ max_gap)
    (i : Nat) (hi : i < s.length) :
    (fill_gaps s max_gap).getD i false = true ↔
      (s.getD i false = true ∨
        (s.getD i false = false ∧ (maxFalseRunLen s i : Int) ≤ max_gap)) := by
  have hfl : i < (falseRunLengths s).length := by
    rw [falseRunLengths_length]
    exact hi
  have hmap : (fill_gaps s max_gap).getD i false =
      decide (((falseRunLengths s).getD i 0 : Int) ≤ max_gap) := by
    rw [fill_gaps, List.getD_eq_getElem _ _ (by rw [List.length_map]; exact hfl),
      List.getElem_map, List.getD_eq_getElem _ _ hfl]
  rw [hmap, falseRunLengths_getD s i hi]
  by_cases hsi : s.getD i false = true
  · rw [if_pos hsi]
    simp only [Nat.cast_zero, decide_eq_true_eq]
    constructor
    · intro _
      exact Or.inl hsi
    · intro _
      exact hg
  · simp only [Bool.not_eq_true] at hsi
    rw [if_neg (by simp only [Bool.not_eq_true]; exact hsi)]
    simp only [decide_eq_true_eq]
    constructor
    · intro h
      exact Or.inr ⟨hsi, h⟩
    · rintro (h | ⟨_, h⟩)
      · rw [hsi] at h
        cases h
      · exact h

/-- Witness for C5 at `s = [true, false, true]`, `max_gap = 1`, `i = 1`: the
single-`false` run is bridged. -/
theorem fill_gaps_getD_iff_witness :
    (0 : Int) ≤ 1 ∧ 1 < [true, false, true].length ∧
      ((fill_gaps [true, false, true] 1).getD 1 false = true ↔
        ([true, false, true].getD 1 false = true ∨
          ([true, false, true].getD 1 false = false ∧
            (maxFalseRunLen [true, false, true] 1 : Int) ≤ 1))) :=
  ⟨by decide, by decide, fill_gaps_getD_iff [true, false, true] 1 (by decide) 1 (by decide)⟩

/-! ## Claim C7 -/

lemma fill_gaps_nil (g : Int) : fill_gaps [] g = [] := rfl

lemma fill_gaps_cons_true (l : List Bool) (g : Int) :
    fill_gaps (true :: l) g = decide ((0 : Int) ≤ g) :: fill_gaps l g := by
  simp [fill_gaps, frl_cons_true]

lemma fill_gaps_block (k : Nat) (l : List Bool) (g : Int) :
    fill_gaps (List.replicate k false ++ true :: l) g =
      List.replicate k (decide ((k : Int) ≤ g)) ++
        decide ((0 : Int) ≤ g) :: fill_gaps l g := by
  simp [fill_gaps, frl_block, List.map_replicate]

lemma fill_gaps_replicate_false (k : Nat) (g : Int) :
    fill_gaps (List.replicate k false) g = List.replicate k (decide ((k : Int) ≤ g)) := by
  simp [fill_gaps, frl_replicate_false, List.map_replicate]

lemma fill_gaps_true_prefix (g : Int) (hg : 0 ≤ g) (k : Nat) :
    ∀ m : List Bool, fill_gaps (List.replicate k true ++ m) g =
      List.replicate k true ++ fill_gaps m g := by
  induction k with
  | zero => intro m; simp
  | succ j ih =>
    intro m
    have h1 : List.replicate (j + 1) true ++ m = true :: (List.replicate j true ++ m) := rfl
    rw [h1, fill_gaps_cons_true, ih, decide_eq_true hg]
    rfl

lemma fill_gaps_idem_aux (g : Int) (hg : 0 ≤ g) (n : Nat) :
    ∀ s : List Bool, s.length ≤ n → fill_gaps (fill_gaps s g) g = fill_gaps s g := by
  induction n with
  | zero =>
    intro s hs
    have h0 : s = [] := List.eq_nil_of_length_eq_zero (by omega)
    subst h0
    rfl
  | succ m ihm =>
    intro s hs
    rcases bool_block_cases s with h0 | ⟨l, hl⟩ | ⟨k, l, hk, hl⟩ | ⟨k, hk, hl⟩
    · subst h0
      rfl
    · subst hl
      have hlm : l.length ≤ m := by
        simp at hs
        omega
      rw [fill_gaps_cons_true, decide_eq_true hg, fill_gaps_cons_true,
        decide_eq_true hg, ihm l hlm]
    · subst hl
      have hlm : l.length ≤ m := by
        simp at hs
        omega
      by_cases hkg : (k : Int) ≤ g
      · rw [fill_gaps_block, decide_eq_true hkg, decide_eq_true hg]
        have hmerge : List.replicate k true ++ true :: fill_gaps l g =
            List.replicate (k + 1) true ++ fill_gaps l g := by
          rw [List.replicate_succ', List.append_assoc]
          rfl
        rw [hmerge, fill_gaps_true_prefix g hg, ihm l hlm]
      · rw [fill_gaps_block, decide_eq_false hkg, decide_eq_true hg,
          fill_gaps_block, decide_eq_false hkg, decide_eq_true hg, ihm l hlm]
    · subst hl
      by_cases hkg : (k : Int) ≤ g
      · rw [fill_gaps_replicate_false, decide_eq_true hkg]
        have h1 := fill_gaps_true_prefix g hg k []
        simpa [fill_gaps_nil] using h1
      · rw [fill_gaps_replicate_false, decide_eq_false hkg,
          fill_gaps_replicate_false, decide_eq_false hkg]

/-- Claim C7: `fill_gaps` is idempotent for any fixed `max_gap`: bridging
twice changes nothing. -/
theorem fill_gaps_idem (s : List Bool) (g : Int) :
    fill_gaps (fill_gaps s g) g = fill_gaps s g := by
  by_cases hg : 0 ≤ g
  · exact fill_gaps_idem_aux g hg s.length s (le_refl _)
  · have hneg : g < 0 := by omega
    rw [fill_gaps_of_neg s g hneg, fill_gaps_of_neg _ g hneg, List.length_replicate]

/-! ## Claim C10 -/

/-- Claim C10: for every boolean series `s` and every `max_gap < 0`, every
position of `fill_gaps s max_gap` is `false`, including the positions that are
`true` in `s`: the whole output is `replicate s.length false`.  Hence the
monotonic-superset property of the spec genuinely needs `max_gap ≥ 0`. -/
theorem fill_gaps_neg_all_false (arr : List Bool) (max_gap : Int) (h : max_gap < 0) :
    fill_gaps arr max_gap = List.replicate arr.length false :=
  fill_gaps_of_neg arr max_gap h

/-- Witness for C10 at `arr = [true]`, `max_gap = -1`: even the `true` position
comes out `false`. -/
theorem fill_gaps_neg_all_false_witness :
    (-1 : Int) < 0 ∧ fill_gaps [true] (-1) = List.replicate [true].length false :=
  ⟨by decide, fill_gaps_neg_all_false [true] (-1) (by decide)⟩

/-! ## Claim C3 -/

/-- Counterexample to claim C3 as stated: with threshold `0.2` and `max_gap`
`2`, the result at index `0` is `true` (the leading dry run has length
`2 ≤ max_gap` and is bridged by `fill_gaps`), whereas the claim requires
`false` at every index outside `2..5`. -/
theorem is_rain_event_c3_index0_true :
    (is_rain_event c3Day (mkRat 1 5) 2).getD 0 false = true := by decide

/-- Claim C3 (amended): for the day with precipitation
`[0, 0, 0.3, 0, 0, 0.4, 0, 0, 0, 0]`, threshold `0.2` and `max_gap 2`,
`is_rain_event` is `true` exactly at indices `0`-`5` and `false` at `6`-`9`:
the gap between the rain hours 2 and 5 is bridged, and so is the leading dry
run of length `2 ≤ max_gap`, while the trailing dry run of length `4` stays
`false`. -/
theorem is_rain_event_c3_eval :
    is_rain_event c3Day (mkRat 1 5) 2 =
      [true, true, true, true, true, true, false, false, false, false] := by decide

/-! ## The second-wet-period selection (claims C1, C2, C6) -/

lemma sorted_getLast?_eq {l : List Nat} (hp : l.Pairwise (fun a b => a < b))
    {x : Nat} (hx : x ∈ l) (hmax : ∀ y ∈ l, y ≤ x) : l.getLast? = some x := by
  induction l with
  | nil => cases hx
  | cons a t ih =>
    cases t with
    | nil =>
      have hxa : x = a := by simpa using hx
      subst hxa
      rfl
    | cons b u =>
      rw [List.getLast?_cons_cons]
      have hp' : (b :: u).Pairwise (fun a b => a < b) := (List.pairwise_cons.mp hp).2
      have hax : ∀ y ∈ b :: u, y ≤ x := fun y hy => hmax y (List.mem_cons_of_mem a hy)
      rcases List.mem_cons.mp hx with hxa | hxt
      · exfalso
        have hab : a < b := (List.pairwise_cons.mp hp).1 b (List.mem_cons_self b u)
        have hbx : b ≤ x := hmax b (List.mem_cons_of_mem a (List.mem_cons_self b u))
        omega
      · exact ih hp' hxt hax

lemma pred_iff_qualifies (df : List WRow) (i : Nat) :
    (((label1d (fill_gaps (wetSeries df) 4)).getD i 0 == 2) &&
      (wetSeries df).getD i false) = true ↔ qualifies df i := by
  unfold qualifies
  simp [Bool.and_eq_true]

lemma qualifies_lt_length {df : List WRow} {i : Nat} (h : qualifies df i) :
    i < df.length := by
  by_contra hc
  push_neg at hc
  have hlen : (wetSeries df).length ≤ i := by
    rw [wetSeries, List.length_map]
    exact hc
  have h2 := h.2
  rw [List.getD_eq_default _ false hlen] at h2
  cases h2

lemma compute_duration_eq_of_greatest (df : List WRow) (L : Nat)
    (hQ : qualifies df L)
    (hmax : ∀ m, m < df.length → qualifies df m → m ≤ L) :
    compute_duration_and_temperature_wet_period df =
      (((wetSeries df).take (L + 1)).count true,
        some (((tempSeries df).take (L + 1)).sum / ((L + 1 : Nat) : ℚ))) := by
  have hwlen : (wetSeries df).length = df.length := by rw [wetSeries, List.length_map]
  have hL : L < df.length := qualifies_lt_length hQ
  have hlast : ((List.range (wetSeries df).length).filter
      (fun i => ((label1d (fill_gaps (wetSeries df) 4)).getD i 0 == 2) &&
        (wetSeries df).getD i false)).getLast? = some L := by
    apply sorted_getLast?_eq
    · exact (List.pairwise_lt_range _).filter _
    · rw [List.mem_filter, List.mem_range]
      exact ⟨by rw [hwlen]; exact hL, (pred_iff_qualifies df L).mpr hQ⟩
    · intro y hy
      rw [List.mem_filter, List.mem_range] at hy
      exact hmax y (by rw [← hwlen]; exact hy.1) ((pred_iff_qualifies df y).mp hy.2)
  have htlen : ((tempSeries df).take (L + 1)).length = L + 1 := by
    rw [List.length_take, tempSeries, List.length_map]
    omega
  simp only [compute_duration_and_temperature_wet_period]
  rw [hlast]
  dsimp only
  rw [htlen]

/-! ## Claim C1 -/

/-- Claim C1: if some index carries label `2` in the labeling of
`fill_gaps wet 4` and is wet in the raw series, and `L` is the greatest such
index, then the function returns the count of raw wet hours over indices
`0..L` and the arithmetic mean of the temperature over indices `0..L` (all
hours of the prefix, wet or not). -/
theorem compute_duration_second_period (df : List WRow) (L : Nat)
    (hQ : qualifies df L)
    (hmax : ∀ m, m < df.length → qualifies df m → m ≤ L) :
    compute_duration_and_temperature_wet_period df =
      (((wetSeries df).take (L + 1)).count true,
        some (((tempSeries df).take (L + 1)).sum / ((L + 1 : Nat) : ℚ))) :=
  compute_duration_eq_of_greatest df L hQ hmax

/-- Witness for C1 on a 7-hour window whose second wet period is the single
wet hour at index 6. -/
theorem compute_duration_second_period_witness :
    qualifies c1Window 6 ∧
      (∀ m, m < c1Window.length → qualifies c1Window m → m ≤ 6) ∧
      compute_duration_and_temperature_wet_period c1Window =
        (((wetSeries c1Window).take (6 + 1)).count true,
          some (((tempSeries c1Window).take (6 + 1)).sum / ((6 + 1 : Nat) : ℚ))) :=
  ⟨by decide, by decide,
    compute_duration_second_period c1Window 6 (by decide) (by decide)⟩

/-! ## Claim C6 -/

/-- Claim C6: when no index both carries label `2` and is wet in the raw
series, the function returns `wet_hours = 0` and an absent temperature, as a
normal non-error result (the embedding is a total function, so no exception is
possible). -/
theorem compute_duration_no_second_period (df : List WRow)
    (h : ∀ i, i < df.length → ¬ qualifies df i) :
    compute_duration_and_temperature_wet_period df = (0, none) := by
  have hwlen : (wetSeries df).length = df.length := by rw [wetSeries, List.length_map]
  have hfil : (List.range (wetSeries df).length).filter
      (fun i => ((label1d (fill_gaps (wetSeries df) 4)).getD i 0 == 2) &&
        (wetSeries df).getD i false) = [] := by
    rw [List.filter_eq_nil_iff]
    intro a ha
    rw [List.mem_range, hwlen] at ha
    intro hpa
    exact h a ha ((pred_iff_qualifies df a).mp hpa)
  simp only [compute_duration_and_temperature_wet_period]
  rw [hfil]
  rfl

/-- Witness for C6 on a window with a single wet period. -/
theorem compute_duration_no_second_period_witness :
    (∀ i, i < c6Window.length → ¬ qualifies c6Window i) ∧
      compute_duration_and_temperature_wet_period c6Window = (0, none) :=
  ⟨by decide, compute_duration_no_second_period c6Window (by decide)⟩

/-! ## Claim C2 -/

lemma wetSeries_zipWith_infRow : ∀ (ws : List Bool) (ts : List ℚ),
    ws.length ≤ ts.length →
    wetSeries (List.zipWith (fun (w : Bool) (t : ℚ) =>
      infRow (if w then 1 else 0) 1 t) ws ts) = ws := by
  intro ws
  induction ws with
  | nil => intro ts _; rfl
  | cons w tl ih =>
    intro ts hlen
    cases ts with
    | nil => simp at hlen
    | cons t tts =>
      have htail := ih tts (by simpa using hlen)
      simp only [List.zipWith_cons_cons, wetSeries, List.map_cons] at htail ⊢
      rw [htail]
      congr 1
      cases w
      · rfl
      · rfl

lemma tempSeries_zipWith_infRow : ∀ (ws : List Bool) (ts : List ℚ),
    ts.length ≤ ws.length →
    tempSeries (List.zipWith (fun (w : Bool) (t : ℚ) =>
      infRow (if w then 1 else 0) 1 t) ws ts) = ts := by
  intro ws
  induction ws with
  | nil =>
    intro ts hlen
    have h0 : ts = [] := List.eq_nil_of_length_eq_zero (by simpa using hlen)
    subst h0
    rfl
  | cons w tl ih =>
    intro ts hlen
    cases ts with
    | nil => rfl
    | cons t tts =>
      have htail := ih tts (by simpa using hlen)
      simp only [List.zipWith_cons_cons, tempSeries, List.map_cons] at htail ⊢
      rw [htail]
      rfl

lemma c2_compute_eval (ts : List ℚ) (h : ts.length = 36) :
    compute_duration_and_temperature_wet_period (c2WindowT ts) =
      (26, some (ts.sum / 36)) := by
  have hwet : wetSeries (c2WindowT ts) = c2Pattern := by
    apply wetSeries_zipWith_infRow
    rw [h]
    decide
  have htmp : tempSeries (c2WindowT ts) = ts := by
    apply tempSeries_zipWith_infRow
    rw [h]
    decide
  have hlen36 : (c2WindowT ts).length = 36 := by
    rw [c2WindowT, List.length_zipWith, h]
    decide
  have hQ : qualifies (c2WindowT ts) 35 := by
    unfold qualifies
    rw [hwet]
    decide
  have hmax : ∀ m, m < (c2WindowT ts).length → qualifies (c2WindowT ts) m → m ≤ 35 := by
    intro m hm _
    rw [hlen36] at hm
    omega
  rw [compute_duration_eq_of_greatest (c2WindowT ts) 35 hQ hmax, hwet, htmp]
  have htake : ts.take (35 + 1) = ts := List.take_of_length_le (by omega)
  have hcount : (c2Pattern.take (35 + 1)).count true = 26 := by decide
  have hcast : ((35 + 1 : Nat) : ℚ) = 36 := by norm_num
  rw [htake, hcount, hcast]

/-- Counterexample to claim C2 as stated: on the canonical 8 wet + 2 dry +
6 wet + 8 dry + 12 wet window with temperatures `c2Temps`, the returned
average temperature is the mean over the full 36-hour prefix (here `1`), not
`mean(temperature[0:16])` (here `0`): the last index with label `2` is `35`,
the end of the third raw wet span, not `15`. -/
theorem compute_c2_avg_not_first16 :
    (compute_duration_and_temperature_wet_period (c2WindowT c2Temps)).2 ≠
      some ((c2Temps.take 16).sum / ((c2Temps.take 16).length : ℚ)) := by
  rw [c2_compute_eval c2Temps (by rfl)]
  have h16 : c2Temps.take 16 = List.replicate 16 (0 : ℚ) := by rfl
  have hsum : c2Temps.sum = 36 := by
    rw [c2Temps]
    simp
  rw [h16, hsum]
  simp

/-- Claim C2 (amended): for every 36-hour window realising the wet pattern
8 wet + 2 dry + 6 wet + 8 dry + 12 wet, the function returns `wet_hours = 26`
and `average_temperature = mean(temperature[0:36])`, the mean of all 36
temperatures — not `mean(temperature[0:16])`, since the second labeled
component is the final 12-hour wet span ending at index 35. -/
theorem compute_duration_c2_pattern (ts : List ℚ) (h : ts.length = 36) :
    compute_duration_and_temperature_wet_period (c2WindowT ts) =
      (26, some (ts.sum / 36)) :=
  c2_compute_eval ts h

/-- Witness for amended C2 at the concrete temperatures `c2Temps`. -/
theorem compute_duration_c2_pattern_witness :
    c2Temps.length = 36 ∧
      compute_duration_and_temperature_wet_period (c2WindowT c2Temps) =
        (26, some (c2Temps.sum / 36)) :=
  ⟨by rfl, compute_duration_c2_pattern c2Temps (by rfl)⟩

/-! ## Claim C8 -/

lemma islGo_getD (l : List Bool) : ∀ (d i : Nat), i < l.length →
    ((∀ j, j ≤ i → l.getD j false = false) → (islGo l d).getD i 0 = i + d) ∧
    (∀ j, j ≤ i → l.getD j false = true →
      (∀ j', j < j' → j' ≤ i → l.getD j' false = false) →
      (islGo l d).getD i 0 = i - j) := by
  induction l with
  | nil =>
    intro d i hi
    simp at hi
  | cons b rest ih =>
    intro d i hi
    match i with
    | 0 =>
      constructor
      · intro hall
        have hb : b = false := by simpa using hall 0 (le_refl 0)
        subst hb
        simp [islGo]
      · intro j hj hjt _
        have hj0 : j = 0 := by omega
        subst hj0
        have hb : b = true := by simpa using hjt
        subst hb
        simp [islGo]
    | k + 1 =>
      have hk : k < rest.length := by simpa using hi
      constructor
      · intro hall
        have hb : b = false := by simpa using hall 0 (by omega)
        subst hb
        have hrest : ∀ j, j ≤ k → rest.getD j false = false := by
          intro j hj
          simpa using hall (j + 1) (by omega)
        have hv := (ih (d + 1) k hk).1 hrest
        simp only [islGo, if_neg (by simp : ¬ (false : Bool) = true), List.getD_cons_succ]
        rw [hv]
        omega
      · intro j hj hjt hafter
        match j with
        | 0 =>
          have hb : b = true := by simpa using hjt
          subst hb
          have hrest : ∀ j2, j2 ≤ k → rest.getD j2 false = false := by
            intro j2 hj2
            simpa using hafter (j2 + 1) (by omega) (by omega)
          have hv := (ih 1 k hk).1 hrest
          simp only [islGo, List.getD_cons_succ]
          simpa using hv
        | m + 1 =>
          have hmt : rest.getD m false = true := by simpa using hjt
          have hafter2 : ∀ j', m < j' → j' ≤ k → rest.getD j' false = false := by
            intro j2 h1 h2
            simpa using hafter (j2 + 1) (by omega) (by omega)
          have hv := (ih (if b then 1 else d + 1) k hk).2 m (by omega) hmt hafter2
          simp only [islGo, List.getD_cons_succ]
          rw [hv]
          omega

/-- Claim C8: `items_since_last_true` returns at each position `i` the value
`i - j` where `j` is the most recent index `≤ i` holding `true` (`i + 1`, that
is `i - (-1)`, when none exists: `lastTrueIdx` is `-1` then); the result is
`0` exactly where the series is `true` (so at index 0 it is `1` when `s 0` is
false and `0` when true); and it does not decrease from one position to the
next except where a `true` resets it to `0`. -/
theorem items_since_last_true_spec (l : List Bool) (i : Nat) (hi : i < l.length) :
    (((items_since_last_true l).getD i 0 : Int) = i - lastTrueIdx l i) ∧
      ((items_since_last_true l).getD i 0 = 0 ↔ l.getD i false = true) ∧
      ((items_since_last_true l).getD (i - 1) 0 ≤ (items_since_last_true l).getD i 0 ∨
        l.getD i false = true) := by
  by_cases hex : ∃ j, j ≤ i ∧ isTrueAt l j
  · obtain ⟨j0, hj0, hj0t⟩ := hex
    have hJP : isTrueAt l (Nat.findGreatest (isTrueAt l) i) :=
      Nat.findGreatest_spec hj0 hj0t
    have hJle : Nat.findGreatest (isTrueAt l) i ≤ i :=
      Nat.findGreatest_le i
    have hafter : ∀ j', Nat.findGreatest (isTrueAt l) i < j' →
        j' ≤ i → l.getD j' false = false := by
      intro j' h1 h2
      have hne : ¬ isTrueAt l j' := Nat.findGreatest_is_greatest h1 h2
      unfold isTrueAt at hne
      simpa using hne
    have hval : (items_since_last_true l).getD i 0 =
        i - Nat.findGreatest (isTrueAt l) i :=
      (islGo_getD l 1 i hi).2 _ hJle hJP hafter
    have hlt : lastTrueIdx l i = (Nat.findGreatest (isTrueAt l) i : Int) := by
      have hlast : ((List.range (i + 1)).filter (fun j => l.getD j false)).getLast? =
          some (Nat.findGreatest (isTrueAt l) i) := by
        apply sorted_getLast?_eq
        · exact (List.pairwise_lt_range _).filter _
        · rw [List.mem_filter, List.mem_range]
          exact ⟨by omega, hJP⟩
        · intro y hy
          rw [List.mem_filter, List.mem_range] at hy
          by_contra hc
          push_neg at hc
          have := hafter y hc (by omega)
          rw [hy.2] at this
          cases this
      rw [lastTrueIdx, hlast]
    refine ⟨?_, ?_, ?_⟩
    · rw [hval, hlt]
      omega
    · constructor
      · intro h0
        rw [hval] at h0
        have hfi : Nat.findGreatest (isTrueAt l) i = i := by omega
        rw [← hfi]
        exact hJP
      · intro ht
        have hge : i ≤ Nat.findGreatest (isTrueAt l) i :=
          Nat.le_findGreatest (le_refl i) ht
        rw [hval]
        omega
    · by_cases hbi : l.getD i false = true
      · right
        exact hbi
      · left
        simp only [Bool.not_eq_true] at hbi
        have hJne : Nat.findGreatest (isTrueAt l) i ≠ i := by
          intro hc
          have hJP2 : l.getD i false = true := by
            rw [← hc]
            exact hJP
          rw [hbi] at hJP2
          cases hJP2
        have hJlt : Nat.findGreatest (isTrueAt l) i < i := by omega
        have hval2 : (items_since_last_true l).getD (i - 1) 0 =
            (i - 1) - Nat.findGreatest (isTrueAt l) i := by
          apply (islGo_getD l 1 (i - 1) (by omega)).2 _ (by omega) hJP
          intro j' h1 h2
          exact hafter j' h1 (by omega)
        rw [hval, hval2]
        omega
  · push_neg at hex
    have hall : ∀ j, j ≤ i → l.getD j false = false := by
      intro j hj
      have := hex j hj
      unfold isTrueAt at this
      simpa using this
    have hval : (items_since_last_true l).getD i 0 = i + 1 :=
      (islGo_getD l 1 i hi).1 hall
    have hlt : lastTrueIdx l i = -1 := by
      have hfil : (List.range (i + 1)).filter (fun j => l.getD j false) = [] := by
        rw [List.filter_eq_nil_iff]
        intro a ha
        rw [List.mem_range] at ha
        rw [hall a (by omega)]
        simp
      rw [lastTrueIdx, hfil]
      rfl
    refine ⟨?_, ?_, ?_⟩
    · rw [hval, hlt]
      omega
    · rw [hval, hall i (le_refl i)]
      constructor
      · intro h0
        omega
      · intro ht
        cases ht
    · left
      match i with
      | 0 => exact le_refl _
      | k + 1 =>
        have hval2 : (items_since_last_true l).getD k 0 = k + 1 :=
          (islGo_getD l 1 k (by omega)).1 (fun j hj => hall j (by omega))
        simp only [Nat.add_sub_cancel]
        rw [hval, hval2]
        omega

/-- Witness for C8 at `l = [false, true, false]`, `i = 2`: the most recent
`true` is at index 1, so the value is `2 - 1 = 1`. -/
theorem items_since_last_true_spec_witness :
    2 < [false, true, false].length ∧
      ((((items_since_last_true [false, true, false]).getD 2 0 : Int) =
          2 - lastTrueIdx [false, true, false] 2) ∧
        ((items_since_last_true [false, true, false]).getD 2 0 = 0 ↔
          [false, true, false].getD 2 false = true) ∧
        ((items_since_last_true [false, true, false]).getD (2 - 1) 0 ≤
            (items_since_last_true [false, true, false]).getD 2 0 ∨
          [false, true, false].getD 2 false = true)) :=
  ⟨by decide, items_since_last_true_spec [false, true, false] 2 (by decide)⟩

/-! ## Claim C4 -/

/-- Claim C4: whenever some requested day has zero matching hourly rows,
`summarize_weather` fails with `MissingDataError` (the pandas `KeyError` of
the empty `.loc` day lookup, named per the spec's taxonomy) and returns no
summary rows at all — in particular no row for that day and never a row of
zeros. -/
theorem summarize_weather_missing_day (dates : List Nat) (df : List WRow) (d : Nat)
    (hd : d ∈ dates) (hempty : (df.filter (fun r => r.day == d)).isEmpty = true) :
    summarize_weather dates df = Except.error "MissingDataError" := by
  induction dates with
  | nil => cases hd
  | cons a rest ih =>
    simp only [summarize_weather, weatherSummaryRows]
    by_cases ha : (df.filter (fun r => r.day == a)).isEmpty = true
    · have hae : loc_day df a = Except.error "MissingDataError" := by
        simp only [loc_day]
        rw [if_pos ha]
      rw [hae]
    · have hae : loc_day df a = Except.ok (df.filter (fun r => r.day == a)) := by
        simp only [loc_day]
        rw [if_neg ha]
      have hd2 : d ∈ rest := by
        rcases List.mem_cons.mp hd with h1 | h2
        · subst h1
          exact absurd hempty ha
        · exact h2
      have ih2 : weatherSummaryRows rest df = Except.error "MissingDataError" := ih hd2
      rw [hae, ih2]

/-- Witness for C4: requesting day `5` from an empty table fails. -/
theorem summarize_weather_missing_day_witness :
    5 ∈ [5] ∧ (([] : List WRow).filter (fun r => r.day == 5)).isEmpty = true ∧
      summarize_weather [5] [] = Except.error "MissingDataError" :=
  ⟨by decide, by rfl, summarize_weather_missing_day [5] [] 5 (by decide) (by rfl)⟩

/-! ## Claim C9 -/

/-- Claim C9: when every requested day has matching hourly rows,
`summarize_rain` succeeds and returns one `(Hourly Date, Hourly
Precipitation, Hourly Rain Event)` row per hour, ordered as all hours of the
first requested day in stored (timestamp) order, then all hours of the second
day, and so on in the order the days were supplied, each day's rain-event
flags coming from `is_rain_event` over that day's window. -/
theorem summarize_rain_rows (dates : List Nat) (df : List WRow)
    (h : ∀ d ∈ dates, (df.filter (fun r => r.day == d)).isEmpty = false) :
    summarize_rain dates df = Except.ok (dates.flatMap (fun d =>
      List.zipWith (fun r e => (r.date, r.precipitation, e))
        (df.filter (fun r => r.day == d))
        (is_rain_event (df.filter (fun r => r.day == d)) (mkRat 1 5) 2))) := by
  induction dates with
  | nil => rfl
  | cons a rest ih =>
    have ha := h a (List.mem_cons_self a rest)
    have hae : loc_day df a = Except.ok (df.filter (fun r => r.day == a)) := by
      simp only [loc_day]
      rw [if_neg (by rw [ha]; simp)]
    simp only [summarize_rain]
    rw [hae, ih (fun d hd => h d (List.mem_cons_of_mem a hd)), List.flatMap_cons]

/-- Witness for C9 on a one-day, two-hour table. -/
theorem summarize_rain_rows_witness :
    (∀ d ∈ [3], (c9df.filter (fun r => r.day == d)).isEmpty = false) ∧
      summarize_rain [3] c9df = Except.ok ([3].flatMap (fun d =>
        List.zipWith (fun r e => (r.date, r.precipitation, e))
          (c9df.filter (fun r => r.day == d))
          (is_rain_event (c9df.filter (fun r => r.day == d)) (mkRat 1 5) 2))) :=
  ⟨by decide, summarize_rain_rows [3] c9df (by decide)⟩

end AScab
